import Mathlib

/-! # Aegisub headless driver: selection resolver, script lookup, command resolution, dialog shims

A shallow embedding of the `--cli` branch of `main` (`src/main.cpp`), of
`find_script` (`src/main.cpp`) and of `wrapMessageBox` and `wrapChoiceDialog`
(`src/gui_wrap.cpp`), followed by the properties established about them.

Conventions of the embedding.

* A line reference (`AssDialogue*` pointing into `context.ass->Events`) is the
  position of the line in the event list, a `Nat`; `nullptr` is `none`.
* `Selection` (a `std::set<AssDialogue*>`) is a `Finset Nat` of positions;
  `std::set<int>` is a `Finset Int`.
* The loop counter `int i` and `active_index` are mathematical integers: the
  counter only moves from `0` to the number of events, so no wrap-around is
  modelled (event lists stay below `2^31` entries).
* Everything that the driver only calls (filesystem, script factory, command
  registry, commands, logging, saving) is a field of an environment record or
  an entry of the run's event trace.
-/

namespace Aegisub

/-! ## Selection resolver (`main`, lines 411-440) -/

/-- Loop variables of the scan at `main` lines 417-431: the counter `i`, the
pointer `active_line` and the set `selected_lines`. -/
structure ScanState where
  i : Int
  active_line : Option Nat
  selected_lines : Finset Nat

/-- One iteration of the body of `for (auto& line : context.ass->Events)`;
`line` is the position standing for `&line`. -/
def scanStep (active_index : Int) (selected_indices : Finset Int)
    (st : ScanState) (line : Nat) : ScanState :=
  let active1 : Option Nat := if st.i = active_index then some line else st.active_line
  if selected_indices = ∅ ∨ st.i ∈ selected_indices then
    { i := st.i + 1
      active_line := if active1 = none then some line else active1
      selected_lines := insert line st.selected_lines }
  else
    { i := st.i + 1
      active_line := active1
      selected_lines := st.selected_lines }

/-- The range-for over `context.ass->Events`, started at the element whose
position is `pos`. -/
def scan {α : Type} (active_index : Int) (selected_indices : Finset Int) :
    List α → Nat → ScanState → ScanState
  | [], _, st => st
  | _ :: rest, pos, st =>
      scan active_index selected_indices rest (pos + 1)
        (scanStep active_index selected_indices st pos)

/-- Initial values: `int i = 0`, `active_line = nullptr`, empty `Selection`. -/
def scanInit : ScanState := { i := 0, active_line := none, selected_lines := ∅ }

/-- The selection resolver of `main` (lines 411-440): the scan followed by the
post-scan step. The result is the pair `(active_line, selected_lines)` handed
to `SetSelectionAndActive`; `none` stands for the undefined behaviour of
`Events.front()` on an empty event list. -/
def resolveSelection {α : Type} (events : List α) (active_index : Int)
    (selected_indices : Finset Int) : Option (Nat × Finset Nat) :=
  let st := scan active_index selected_indices events 0 scanInit
  match st.active_line with
  | some a => some (a, st.selected_lines)
  | none =>
      match events with
      | [] => none
      | _ :: _ => some (0, insert 0 st.selected_lines)

/-! ## Observable actions of a run -/

/-- Severities of `agi::log` used by the driver and the shims (`LOG_E` logs at
`Exception`, `LOG_W` at `Warning`, `LOG_D` at `Debug`). -/
inductive Severity where
  | Exception
  | Assert
  | Warning
  | Info
  | Debug
  deriving DecidableEq, Repr

/-- A filesystem path, as the string it is built from; `path::empty()` is
equality with `""`. -/
abbrev Path := String

/-- The externally visible actions of the modelled code, in program order. -/
inductive Event (Cmd : Type) where
  /-- A line written to the log sink: `LOG_x(section) << msg`. -/
  | log (severity : Severity) (sect : String) (msg : String)
  /-- Text written to `std::cout`. -/
  | stdout (text : String)
  /-- A call `selectionController->SetSelectionAndActive(sel, active)`. -/
  | setSelectionAndActive (sel : Finset Nat) (active : Nat)
  /-- A probe `agi::fs::FileExists(p)`. -/
  | fileExists (p : Path)
  /-- A probe `agi::fs::DirectoryExists(p)`. -/
  | directoryExists (p : Path)
  /-- A call `Automation4::ScriptFactory::CreateFromFile(p, true, false)`. -/
  | createFromFile (p : Path)
  /-- A call `cmd::get(name)`. -/
  | cmdGet (name : String)
  /-- A call `cmd->Validate(&context)`. -/
  | validate (c : Cmd)
  /-- A call `(*cmd)(&context)`. -/
  | invoke (c : Cmd)
  /-- A call `boost::filesystem::current_path(p)` setting the directory. -/
  | setCurrentPath (p : Path)
  /-- A call `context.subsController->Save(p)`. -/
  | save (p : Path)
  deriving DecidableEq

/-- The collaborators the driver calls, over a state `W` of everything they can
read or change (filesystem, working directory, options, command registry,
session context and document). -/
structure Env (W Script Cmd : Type) where
  /-- The function `agi::fs::FileExists`. -/
  FileExists : W → Path → Bool
  /-- The function `agi::fs::DirectoryExists`. -/
  DirectoryExists : W → Path → Bool
  /-- The getter `boost::filesystem::current_path()`. -/
  current_path : W → Path
  /-- The setter `boost::filesystem::current_path(p)`. -/
  set_current_path : Path → W → W
  /-- The `operator/` of paths. -/
  join : Path → String → Path
  /-- The option string `OPT_GET("Path/Automation/Autoload")->GetString()`. -/
  Autoload : W → String
  /-- The decoder `config::path->Decode`. -/
  Decode : W → String → Path
  /-- The factory `ScriptFactory::CreateFromFile(p, true, false)`; `none` is a
  null script. -/
  CreateFromFile : Path → W → Option Script × W
  /-- The accessor `script->GetMacros()`. -/
  GetMacros : Script → List Cmd
  /-- The display name `c->StrMenu(&context)`. -/
  StrMenu : Cmd → W → String
  /-- The registry lookup `cmd::get`; `none` is `CommandNotFound`. -/
  get : String → W → Option Cmd
  /-- The predicate `cmd->Validate(&context)`. -/
  Validate : Cmd → W → Bool
  /-- The invocation `(*cmd)(&context)`. -/
  call : Cmd → W → W
  /-- The identifier `cmd->name()`. -/
  name : Cmd → String
  /-- The call `selectionController->SetSelectionAndActive`. -/
  SetSelectionAndActive : Finset Nat → Nat → W → W
  /-- The call `subsController->Save`. -/
  Save : Path → W → W

/-! ## Script lookup (`find_script`, lines 295-325) -/

/-- Tokens of a character list cut at every `delim`; `cur` holds the token
being read, reversed. -/
def splitChars (delim : Char) : List Char → List Char → List (List Char)
  | [], cur => [cur.reverse]
  | c :: cs, cur =>
      if c = delim then cur.reverse :: splitChars delim cs []
      else splitChars delim cs (c :: cur)

/-- Modelled from the spec: `agi::Split` of libaegisub is not among the sources;
the spec has the autoload list "pipe-delimited", split "into candidate
directories" kept in listed order. An empty string has no token. -/
def Split (str : String) (delim : Char) : List String :=
  if str.data = [] then [] else (splitChars delim str.data []).map String.mk

/-- The loop of lines 309-317 over the tokens still to visit: `script` is the
variable assigned at line 315; the second component lists the probes made. -/
def find_script_autoload {W Script Cmd : Type} (E : Env W Script Cmd) (w : W) (file : String) :
    List String → Path → Path × List (Event Cmd)
  | [], script => (script, [])
  | tok :: rest, script =>
      let dirname := E.Decode w tok
      if E.DirectoryExists w dirname = false then
        let r := find_script_autoload E w file rest script
        (r.1, Event.directoryExists dirname :: r.2)
      else
        let scriptname := E.join dirname file
        if E.FileExists w scriptname = true then
          let r := find_script_autoload E w file rest scriptname
          (r.1, Event.directoryExists dirname :: Event.fileExists scriptname :: r.2)
        else
          let r := find_script_autoload E w file rest script
          (r.1, Event.directoryExists dirname :: Event.fileExists scriptname :: r.2)

/-- Lines 297-318 of `find_script`: the value of `script` when line 320 is
reached, with the probes made on the way. -/
def find_script_path {W Script Cmd : Type} (E : Env W Script Cmd) (w : W) (file : String) :
    Path × List (Event Cmd) :=
  let absolute : Path := file
  let relative : Path := E.join (E.current_path w) file
  if E.FileExists w absolute = true then
    (absolute, [Event.fileExists absolute])
  else if E.FileExists w relative = true then
    (relative, [Event.fileExists absolute, Event.fileExists relative])
  else
    let r := find_script_autoload E w file (Split (E.Autoload w) '|') ""
    (r.1, Event.fileExists absolute :: Event.fileExists relative :: r.2)

/-- The function `find_script`: `Except.error msg` is the thrown
`agi::InvalidInputException(msg)`; `Except.ok` carries what `CreateFromFile`
returned and the state it left. -/
def find_script {W Script Cmd : Type} (E : Env W Script Cmd) (w : W) (file : String) :
    Except String (Option Script × W) × List (Event Cmd) :=
  let r := find_script_path E w file
  if r.1 = "" then
    (Except.error ("Could not find script file: " ++ file), r.2)
  else
    (Except.ok (E.CreateFromFile r.1 w), r.2 ++ [Event.createFromFile r.1])

/-- The resolution policy in the words of the spec: the direct path if it
exists, else the path under the working directory if it exists, else the last
existing `directory/reference` over the existing autoload directories in
listed order. -/
def find_script_policy {W Script Cmd : Type} (E : Env W Script Cmd) (w : W) (file : String) :
    Option Path :=
  if E.FileExists w file = true then some file
  else if E.FileExists w (E.join (E.current_path w) file) = true then
    some (E.join (E.current_path w) file)
  else
    (((((Split (E.Autoload w) '|').map (E.Decode w)).filter (E.DirectoryExists w)).map
      (fun d => E.join d file)).filter (E.FileExists w)).getLast?

/-! ## Script loading and command resolution (`main`, lines 448-497) -/

/-- How the loop of lines 453-460 ends. -/
inductive LoadResult (W Script : Type) where
  /-- Every reference was loaded; `scripts` is the vector built. -/
  | loaded (scripts : List Script) (w : W)
  /-- The factory returned a null script: `return 1` at line 457. -/
  | nullScript (w : W)
  /-- The call of `find_script` threw. -/
  | threw (msg : String) (w : W)

/-- The loop of lines 453-460 over the `--automation` references still to
load; `scripts` is the vector built so far. -/
def load_scripts {W Script Cmd : Type} (E : Env W Script Cmd) :
    List String → W → List Script → LoadResult W Script × List (Event Cmd)
  | [], w, scripts => (LoadResult.loaded scripts w, [])
  | s :: rest, w, scripts =>
      let logged : Event Cmd := Event.log Severity.Debug "main" ("Loading " ++ s)
      match find_script E w s with
      | (Except.error msg, tr) => (LoadResult.threw msg w, logged :: tr)
      | (Except.ok (none, w1), tr) => (LoadResult.nullScript w1, logged :: tr)
      | (Except.ok (some script, w1), tr) =>
          let r := load_scripts E rest w1 (scripts ++ [script])
          (r.1, logged :: tr ++ r.2)

/-- The inner loop of lines 469-473 over the macros of one script. -/
def scanMacros {W Script Cmd : Type} (E : Env W Script Cmd) (w : W) (mname : String) :
    List Cmd → Option Cmd → Option Cmd
  | [], cmd => cmd
  | c :: rest, cmd =>
      if E.StrMenu c w = mname then scanMacros E w mname rest (some c)
      else scanMacros E w mname rest cmd

/-- The outer loop of lines 468-474 over the loaded scripts; `cmd` is the
pointer assigned at line 471, `none` for `nullptr`. -/
def scanScripts {W Script Cmd : Type} (E : Env W Script Cmd) (w : W) (mname : String) :
    List Script → Option Cmd → Option Cmd
  | [], cmd => cmd
  | script :: rest, cmd =>
      scanScripts E w mname rest (scanMacros E w mname (E.GetMacros script) cmd)

/-- Lines 465-485: the command resolved for `mname`, or `none` when line 483
returns, with the actions made. -/
def resolve_command {W Script Cmd : Type} (E : Env W Script Cmd) (w : W)
    (scripts : List Script) (mname : String) : Option Cmd × List (Event Cmd) :=
  match scanScripts E w mname scripts none with
  | some c => (some c, [])
  | none =>
      match E.get mname w with
      | some c => (some c, [Event.cmdGet mname])
      | none =>
          (none, [Event.cmdGet mname, Event.stdout "asdf\n",
            Event.log Severity.Exception "main" ("Command not found: " ++ mname)])

/-- How a run of `main` ends. -/
inductive Outcome where
  /-- The function `main` returns `code`. -/
  | exit (code : Int)
  /-- An exception leaves `main`. -/
  | uncaught (msg : String)
  /-- Undefined behaviour: `Events.front()` of an empty list. -/
  | undefined
  deriving DecidableEq

/-- Lines 463-497, from the resolution of the command to the save. The flow
leaves `main` at its end without a `return`, which is exit code 0. -/
def run_command {W Script Cmd : Type} (E : Env W Script Cmd) (w : W)
    (scripts : List Script) (mname : String) (cwd : Path) (out_file : String) :
    Outcome × W × List (Event Cmd) :=
  match resolve_command E w scripts mname with
  | (none, tr) => (Outcome.exit 1, w, tr)
  | (some c, tr) =>
      if E.Validate c w = false then
        (Outcome.exit 1, w, tr ++ [Event.validate c,
          Event.log Severity.Exception "main"
            "Skipping automation because validation function returned false"])
      else
        let w1 := E.call c w
        let w2 := E.set_current_path cwd w1
        let w3 := E.Save out_file w2
        (Outcome.exit 0, w3, tr ++ [Event.validate c,
          Event.log Severity.Debug "main" ("Calling " ++ E.name c),
          Event.invoke c, Event.setCurrentPath cwd, Event.save out_file])

/-- The `--cli` branch of `main` from line 411 on, over the loaded event list
and the parsed arguments: `active_index` (`--active-line`), `selected_indices`
(`parse_range` of `--selected-lines`), `automation` (the `--automation`
references, empty when absent), `mname` (the third positional) and `out_file`.
The result is how the run ends, the final state and the actions made. -/
def main_cli {α W Script Cmd : Type} (E : Env W Script Cmd) (w : W) (events : List α)
    (active_index : Int) (selected_indices : Finset Int) (automation : List String)
    (mname : String) (out_file : String) : Outcome × W × List (Event Cmd) :=
  match resolveSelection events active_index selected_indices with
  | none => (Outcome.undefined, w, [])
  | some (active_line, selected_lines) =>
      let w1 := E.SetSelectionAndActive selected_lines active_line w
      let selected : Event Cmd := Event.setSelectionAndActive selected_lines active_line
      let cwd := E.current_path w1
      match load_scripts E automation w1 [] with
      | (LoadResult.threw msg w2, tr) => (Outcome.uncaught msg, w2, selected :: tr)
      | (LoadResult.nullScript w2, tr) => (Outcome.exit 1, w2, selected :: tr)
      | (LoadResult.loaded scripts w2, tr) =>
          let r := run_command E w2 scripts mname cwd out_file
          (r.1, r.2.1, selected :: tr ++ r.2.2)

/-! ## Message shim (`wrapMessageBox`, `gui_wrap.cpp` lines 27-39) -/

/-- The wxWidgets style flag `wxICON_EXCLAMATION` (`wx/defs.h`). -/
def wxICON_EXCLAMATION : Nat := 0x100

/-- The wxWidgets style flag `wxICON_HAND` (`wx/defs.h`). -/
def wxICON_HAND : Nat := 0x200

/-- The wxWidgets alias `wxICON_WARNING = wxICON_EXCLAMATION`. -/
def wxICON_WARNING : Nat := wxICON_EXCLAMATION

/-- The wxWidgets alias `wxICON_ERROR = wxICON_HAND`. -/
def wxICON_ERROR : Nat := wxICON_HAND

/-- The function `wrapMessageBox`; `style` is the bit pattern of the `long`,
`wxMessageBox` the toolkit call made in GUI mode. The result is the returned
`int` and the log lines written. -/
def wrapMessageBox {Cmd : Type} (hasGui : Bool) (wxMessageBox : String → String → Nat → Int)
    (message caption : String) (style : Nat) : Int × List (Event Cmd) :=
  if hasGui = true then
    (wxMessageBox message caption style, [])
  else
    let severity := Severity.Info
    let severity := if (style ||| wxICON_ERROR) ≠ 0 then Severity.Exception else severity
    let severity := if (style ||| wxICON_WARNING) ≠ 0 then Severity.Warning else severity
    (0, [Event.log severity "agi" (caption ++ ": " ++ message)])

/-! ## Choice shim (`wrapChoiceDialog`, `gui_wrap.cpp` lines 41-63) -/

/-- The map `config::choice_indices` (`main.cpp` line 91): `none` for a key
that the map does not hold, else the vector of answers of the key. -/
abbrev ChoiceIndices := String → Option (List String)

/-- The effect of `config::choice_indices[key].pop_back()` on a key whose
vector is `queue`: the last answer goes, every other key keeps its vector. -/
def popBack (choice_indices : ChoiceIndices) (key : String) (queue : List String) :
    ChoiceIndices :=
  fun k => if k = key then some queue.dropLast else choice_indices k

/-- The search `std::find(choices.begin(), choices.end(), to_wx(choice))` with
`std::distance` from `begin`: the position of the first equal choice, `none`
for `choices.end()`. -/
def findChoice (choice : String) : List String → Option Nat
  | [] => none
  | c :: rest =>
      if c = choice then some 0 else (findChoice choice rest).map (fun i => i + 1)

/-- Lines 53-62 of `wrapChoiceDialog`, for the answer `choice` taken from the
queue: the returned `int` and the log lines. `try_parse` is
`agi::util::try_parse` for `int`, `none` when it returns false. The result is
`none` where `choices[0]` is read from an empty array. -/
def answerChoice {Cmd : Type} (try_parse : String → Option Int) (caption : String)
    (choices : List String) (choice : String) : Option (Int × List (Event Cmd)) :=
  match findChoice choice choices with
  | some index => some ((index : Int), [])
  | none =>
      match try_parse choice with
      | none =>
          match choices with
          | [] => none
          | first :: _ =>
              some (0, [Event.log Severity.Warning "agi"
                ("Invalid answer \"" ++ choice ++ "\" given for choice \"" ++ caption ++
                  "\". Using first choice \"" ++ first ++ "\".")])
      | some result => some (result, [])

/-- The function `wrapChoiceDialog` over the map `config::choice_indices`:
the returned `int`, the map it leaves and the log lines.
`wxGetSingleChoiceIndex` is the toolkit call made in GUI mode. The result is
`none` where `choices[0]` is read from an empty array. -/
def wrapChoiceDialog {Cmd : Type} (hasGui : Bool)
    (wxGetSingleChoiceIndex : String → String → List String → Int)
    (try_parse : String → Option Int) (choice_indices : ChoiceIndices)
    (key message caption : String) (choices : List String) :
    Option (Int × ChoiceIndices × List (Event Cmd)) :=
  if hasGui = true then
    some (wxGetSingleChoiceIndex message caption choices, choice_indices, [])
  else
    match choice_indices key with
    | none | some [] =>
        match choices with
        | [] => none
        | first :: _ =>
            some (0, choice_indices, [Event.log Severity.Warning "agi"
              ("No answer given for choice \"" ++ caption ++ "\". Using first choice \"" ++
                first ++ "\".")])
    | some (a :: queue) =>
        let choice := (a :: queue).getLast (List.cons_ne_nil a queue)
        let popped := popBack choice_indices key (a :: queue)
        match answerChoice try_parse caption choices choice with
        | none => none
        | some (result, logged) => some (result, popped, logged)

/-- The run of successive headless `wrapChoiceDialog` calls with one key, one
call per entry `(message, caption, choices)` of `calls`, each on the map left
by the call before: the returned values in call order and the final map. -/
def wrapChoiceDialogCalls {Cmd : Type} (try_parse : String → Option Int) (key : String) :
    List (String × String × List String) → ChoiceIndices →
      Option (List (Int × List (Event Cmd)) × ChoiceIndices)
  | [], choice_indices => some ([], choice_indices)
  | (message, caption, choices) :: rest, choice_indices =>
      match @wrapChoiceDialog Cmd false (fun _ _ _ => 0) try_parse choice_indices key
          message caption choices with
      | none => none
      | some (result, next, logged) =>
          match wrapChoiceDialogCalls try_parse key rest next with
          | none => none
          | some (results, final) => some ((result, logged) :: results, final)

/-- An example of `agi::util::try_parse` for `int`: the decimal strings of the
numbers 0 to 9 parse, nothing else does. -/
def demoParse (s : String) : Option Int :=
  if s = "0" then some 0 else if s = "1" then some 1 else if s = "2" then some 2
  else if s = "3" then some 3 else if s = "4" then some 4 else if s = "5" then some 5
  else if s = "6" then some 6 else if s = "7" then some 7 else if s = "8" then some 8
  else if s = "9" then some 9 else none

/-- An example of `config::choice_indices`: the key `K` holds the answers
`A`, `B` and the key `fmt2` holds `7`, `zzz`; no other key is present. -/
def demoChoices : ChoiceIndices :=
  fun k => if k = "K" then some ["A", "B"] else if k = "fmt2" then some ["7", "zzz"] else none

/-! ## A small concrete environment -/

/-- A command of the example environment: a number and its display name. -/
abbrev DemoCmd := Nat × String

/-- An example environment over a trivial state: two autoload directories
`/a` and `/b` that both hold `x.lua`, a third listed directory that does not
exist, a file `here.lua` in the working directory `/cwd`, and a registry with
the commands `edit/undo` and `Dup`. Command `2` fails validation. -/
def demoEnv : Env Unit (List DemoCmd) DemoCmd where
  FileExists := fun _ p => p == "/a/x.lua" || p == "/b/x.lua" || p == "/cwd/here.lua"
  DirectoryExists := fun _ p => p == "/a" || p == "/b"
  current_path := fun _ => "/cwd"
  set_current_path := fun _ w => w
  join := fun d f => d ++ "/" ++ f
  Autoload := fun _ => "/a|/b|/missing"
  Decode := fun _ tok => tok
  CreateFromFile := fun p w =>
    (if p == "/b/x.lua" then some [(1, "Dup"), (2, "Strict")]
     else if p == "/cwd/here.lua" then some [(3, "Dup")]
     else none, w)
  GetMacros := fun script => script
  StrMenu := fun c _ => c.2
  get := fun name _ =>
    if name == "edit/undo" then some (0, "edit/undo")
    else if name == "Dup" then some (9, "Dup")
    else none
  Validate := fun c _ => c.1 != 2
  call := fun _ w => w
  name := fun c => c.2
  SetSelectionAndActive := fun _ _ w => w
  Save := fun _ w => w

/-! # Properties -/

/-! ### Lemmas about the scan -/

theorem scanStep_i (a : Int) (S : Finset Int) (st : ScanState) (pos : Nat) :
    (scanStep a S st pos).i = st.i + 1 := by
  by_cases hs : S = ∅ ∨ st.i ∈ S <;> simp [scanStep, hs]

theorem scanStep_selected (a : Int) (S : Finset Int) (st : ScanState) (pos : Nat) :
    (scanStep a S st pos).selected_lines =
      if S = ∅ ∨ st.i ∈ S then insert pos st.selected_lines else st.selected_lines := by
  by_cases hs : S = ∅ ∨ st.i ∈ S <;> simp [scanStep, hs]

theorem scanStep_active_hit (a : Int) (S : Finset Int) (st : ScanState) (pos : Nat)
    (h : st.i = a) : (scanStep a S st pos).active_line = some pos := by
  subst h
  by_cases hs : S = ∅ ∨ st.i ∈ S <;> simp [scanStep, hs]

theorem scanStep_active_some (a : Int) (S : Finset Int) (st : ScanState) (pos x : Nat)
    (h : st.i ≠ a) (hx : st.active_line = some x) :
    (scanStep a S st pos).active_line = some x := by
  by_cases hs : S = ∅ ∨ st.i ∈ S <;> simp [scanStep, hs, h, hx]

theorem scanStep_active_none (a : Int) (S : Finset Int) (st : ScanState) (pos : Nat)
    (h : st.i ≠ a) (hx : st.active_line = none) :
    (scanStep a S st pos).active_line =
      if S = ∅ ∨ st.i ∈ S then some pos else none := by
  by_cases hs : S = ∅ ∨ st.i ∈ S <;> simp [scanStep, hs, h, hx]

theorem scan_i {α : Type} (a : Int) (S : Finset Int) (l : List α) (pos : Nat) (st : ScanState) :
    (scan a S l pos st).i = st.i + l.length := by
  induction l generalizing pos st with
  | nil => simp [scan]
  | cons x rest ih =>
      rw [scan, ih, scanStep_i, List.length_cons]
      push_cast
      ring

/-- Once a line is active and the counter has passed `active_index` (or will
never reach it), the rest of the scan leaves the active line alone. -/
theorem scan_active_keep {α : Type} (a : Int) (S : Finset Int) (l : List α) (pos : Nat)
    (st : ScanState) (x : Nat) (hx : st.active_line = some x)
    (ha : a < st.i ∨ st.i + l.length ≤ a) :
    (scan a S l pos st).active_line = some x := by
  induction l generalizing pos st with
  | nil => simpa [scan] using hx
  | cons y rest ih =>
      rw [scan]
      simp only [List.length_cons] at ha
      push_cast at ha
      have hne : st.i ≠ a := by omega
      apply ih
      · exact scanStep_active_some a S st pos x hne hx
      · rw [scanStep_i]
        omega

/-- When the counter meets `active_index` inside the remaining events, the line
at that position ends up active, whatever was active before. -/
theorem scan_active_hit {α : Type} (a : Int) (S : Finset Int) (l : List α) (pos : Nat)
    (st : ScanState) (hi : st.i = pos) (h1 : (pos : Int) ≤ a) (h2 : a < pos + l.length) :
    (scan a S l pos st).active_line = some a.toNat := by
  induction l generalizing pos st with
  | nil => simp at h2; omega
  | cons y rest ih =>
      rw [scan]
      simp only [List.length_cons] at h2
      push_cast at h2
      by_cases heq : st.i = a
      · have hpos : a.toNat = pos := by omega
        apply scan_active_keep
        · rw [hpos]
          exact scanStep_active_hit a S st pos heq
        · left
          rw [scanStep_i]
          omega
      · apply ih
        · rw [scanStep_i, hi]
          push_cast
          ring
        · push_cast
          omega
        · push_cast
          omega

theorem scan_active_isSome {α : Type} (a : Int) (S : Finset Int) (l : List α) (pos : Nat)
    (st : ScanState) (hx : st.active_line.isSome = true) :
    (scan a S l pos st).active_line.isSome = true := by
  induction l generalizing pos st with
  | nil => simpa [scan] using hx
  | cons y rest ih =>
      rw [scan]
      apply ih
      obtain ⟨x, hx⟩ := Option.isSome_iff_exists.mp hx
      by_cases heq : st.i = a
      · rw [scanStep_active_hit a S st pos heq]; rfl
      · rw [scanStep_active_some a S st pos x heq hx]; rfl

/-- The selection built by the scan: what was selected before, plus every
scanned position that passes the test of line 423. -/
theorem scan_selected {α : Type} (a : Int) (S : Finset Int) (l : List α) (pos : Nat)
    (st : ScanState) (hi : st.i = pos) :
    (scan a S l pos st).selected_lines =
      st.selected_lines ∪
        (Finset.Ico pos (pos + l.length)).filter (fun p => S = ∅ ∨ (p : Int) ∈ S) := by
  induction l generalizing pos st with
  | nil => simp [scan]
  | cons y rest ih =>
      rw [scan, ih _ _ (by rw [scanStep_i, hi]; push_cast; ring), scanStep_selected, hi]
      ext p
      by_cases hsel : S = ∅ ∨ (pos : Int) ∈ S
      · simp only [hsel, if_true, Finset.mem_union, Finset.mem_filter, Finset.mem_Ico,
          List.length_cons, Finset.mem_insert]
        constructor
        · rintro ((rfl | h) | ⟨h, hp⟩)
          · right; exact ⟨by omega, hsel⟩
          · left; exact h
          · right; exact ⟨by omega, hp⟩
        · rintro (h | ⟨h, hp⟩)
          · left; right; exact h
          · by_cases hpp : p = pos
            · left; left; exact hpp
            · right; exact ⟨by omega, hp⟩
      · simp only [hsel, if_false, Finset.mem_union, Finset.mem_filter, Finset.mem_Ico,
          List.length_cons]
        constructor
        · rintro (h | ⟨h, hp⟩)
          · left; exact h
          · right; exact ⟨by omega, hp⟩
        · rintro (h | ⟨h, hp⟩)
          · left; exact h
          · by_cases hpp : p = pos
            · subst hpp; exact absurd hp hsel
            · right; exact ⟨by omega, hp⟩

theorem scan_active_bound {α : Type} (a : Int) (S : Finset Int) (l : List α) (pos : Nat)
    (st : ScanState) (hst : ∀ x, st.active_line = some x → x < pos) :
    ∀ y, (scan a S l pos st).active_line = some y → y < pos + l.length := by
  induction l generalizing pos st with
  | nil => simpa [scan] using hst
  | cons z rest ih =>
      intro y hy
      rw [scan] at hy
      have hstep : ∀ x, (scanStep a S st pos).active_line = some x → x < pos + 1 := by
        intro x hx
        by_cases heq : st.i = a
        · rw [scanStep_active_hit a S st pos heq] at hx
          injection hx with hx
          omega
        · cases hact : st.active_line with
          | none =>
              rw [scanStep_active_none a S st pos heq hact] at hx
              split at hx
              · injection hx with hx
                omega
              · exact absurd hx (by simp)
          | some x0 =>
              rw [scanStep_active_some a S st pos x0 heq hact] at hx
              injection hx with hx
              have := hst x0 hact
              omega
      have := ih (pos + 1) _ hstep y hy
      simp only [List.length_cons]
      omega

/-! ### Lemmas about `find_script` -/

/-- The path left in `script` by the autoload loop: the last existing candidate,
or the value it started with. -/
theorem find_script_autoload_path {W Script Cmd : Type} (E : Env W Script Cmd) (w : W)
    (file : String) (toks : List String) (script : Path) :
    (find_script_autoload E w file toks script).1 =
      (((((toks.map (E.Decode w)).filter (E.DirectoryExists w)).map
        (fun d => E.join d file)).filter (E.FileExists w)).getLast?).getD script := by
  induction toks generalizing script with
  | nil => simp [find_script_autoload]
  | cons tok rest ih =>
      by_cases hd : E.DirectoryExists w (E.Decode w tok) = true
      · by_cases hf : E.FileExists w (E.join (E.Decode w tok) file) = true
        · simp [find_script_autoload, hd, hf, ih, List.getLast?_cons]
        · simp [find_script_autoload, hd, hf, ih]
      · simp [find_script_autoload, hd, ih]

/-- The autoload loop only probes the filesystem. -/
theorem find_script_autoload_trace {W Script Cmd : Type} (E : Env W Script Cmd) (w : W)
    (file : String) (toks : List String) (script : Path) :
    ∀ e ∈ (find_script_autoload E w file toks script).2,
      (∃ p, e = Event.fileExists p) ∨ (∃ p, e = Event.directoryExists p) := by
  induction toks generalizing script with
  | nil => simp [find_script_autoload]
  | cons tok rest ih =>
      intro e he
      cases hd : E.DirectoryExists w (E.Decode w tok) with
      | false =>
          have hval : (find_script_autoload E w file (tok :: rest) script).2 =
              Event.directoryExists (E.Decode w tok) ::
                (find_script_autoload E w file rest script).2 := by
            simp [find_script_autoload, hd]
          rw [hval, List.mem_cons] at he
          rcases he with rfl | he
          · right; exact ⟨_, rfl⟩
          · exact ih _ e he
      | true =>
          cases hf : E.FileExists w (E.join (E.Decode w tok) file) with
          | false =>
              have hval : (find_script_autoload E w file (tok :: rest) script).2 =
                  Event.directoryExists (E.Decode w tok) ::
                    Event.fileExists (E.join (E.Decode w tok) file) ::
                      (find_script_autoload E w file rest script).2 := by
                simp [find_script_autoload, hd, hf]
              rw [hval, List.mem_cons, List.mem_cons] at he
              rcases he with rfl | rfl | he
              · right; exact ⟨_, rfl⟩
              · left; exact ⟨_, rfl⟩
              · exact ih _ e he
          | true =>
              have hval : (find_script_autoload E w file (tok :: rest) script).2 =
                  Event.directoryExists (E.Decode w tok) ::
                    Event.fileExists (E.join (E.Decode w tok) file) ::
                      (find_script_autoload E w file rest
                        (E.join (E.Decode w tok) file)).2 := by
                simp [find_script_autoload, hd, hf]
              rw [hval, List.mem_cons, List.mem_cons] at he
              rcases he with rfl | rfl | he
              · right; exact ⟨_, rfl⟩
              · left; exact ⟨_, rfl⟩
              · exact ih _ e he

/-- The lookup of `find_script_path` only probes the filesystem. -/
theorem find_script_path_trace {W Script Cmd : Type} (E : Env W Script Cmd) (w : W)
    (file : String) :
    ∀ e ∈ (find_script_path E w file : Path × List (Event Cmd)).2,
      (∃ p, e = Event.fileExists p) ∨ (∃ p, e = Event.directoryExists p) := by
  intro e he
  unfold find_script_path at he
  dsimp only at he
  split at he
  · simp only [List.mem_singleton] at he
    left; exact ⟨_, he⟩
  · split at he
    · simp only [List.mem_cons, List.mem_singleton, List.not_mem_nil, or_false] at he
      rcases he with rfl | rfl
      · left; exact ⟨_, rfl⟩
      · left; exact ⟨_, rfl⟩
    · simp only [List.mem_cons] at he
      rcases he with rfl | rfl | he
      · left; exact ⟨_, rfl⟩
      · left; exact ⟨_, rfl⟩
      · exact find_script_autoload_trace E w file _ _ e he

/-- The value of `script` at line 320 is the path of the policy, or empty when
the policy finds none. -/
theorem find_script_path_eq {W Script Cmd : Type} (E : Env W Script Cmd) (w : W)
    (file : String) :
    (find_script_path E w file : Path × List (Event Cmd)).1 =
      (find_script_policy E w file).getD "" := by
  unfold find_script_path find_script_policy
  dsimp only
  split
  · rfl
  · split
    · rfl
    · exact find_script_autoload_path E w file _ _

/-- Every path the policy returns exists as a file. -/
theorem find_script_policy_exists {W Script Cmd : Type} (E : Env W Script Cmd) (w : W)
    (file : String) (p : Path) (hp : find_script_policy E w file = some p) :
    E.FileExists w p = true := by
  unfold find_script_policy at hp
  split at hp
  · injection hp with hp; subst hp; assumption
  · split at hp
    · injection hp with hp; subst hp; assumption
    · have := List.mem_of_getLast?_eq_some hp
      exact (List.mem_filter.mp this).2

/-- The policy finds no path exactly when no candidate exists. -/
theorem find_script_policy_none {W Script Cmd : Type} (E : Env W Script Cmd) (w : W)
    (file : String) :
    find_script_policy E w file = none ↔
      (E.FileExists w file = false ∧
        E.FileExists w (E.join (E.current_path w) file) = false ∧
        ∀ tok ∈ Split (E.Autoload w) '|',
          E.DirectoryExists w (E.Decode w tok) = true →
            E.FileExists w (E.join (E.Decode w tok) file) = false) := by
  unfold find_script_policy
  cases h1 : E.FileExists w file with
  | true => simp
  | false =>
      cases h2 : E.FileExists w (E.join (E.current_path w) file) with
      | true => simp
      | false =>
          simp only [Bool.false_eq_true, if_false, List.getLast?_eq_none_iff,
            List.filter_eq_nil_iff, List.mem_map, List.mem_filter, true_and]
          constructor
          · intro h tok htok hd
            have := h (E.join (E.Decode w tok) file) ⟨E.Decode w tok, ⟨⟨tok, htok, rfl⟩, hd⟩, rfl⟩
            simpa using this
          · rintro h p ⟨d, ⟨⟨tok, htok, rfl⟩, hd⟩, rfl⟩
            simp [h tok htok hd]

/-! ### Lemmas about script loading and command resolution -/

/-- What `find_script` does: filesystem probes and the factory call. -/
theorem find_script_trace {W Script Cmd : Type} (E : Env W Script Cmd) (w : W) (file : String) :
    ∀ e ∈ (find_script E w file).2,
      (∃ p, e = Event.fileExists p) ∨ (∃ p, e = Event.directoryExists p) ∨
        (∃ p, e = Event.createFromFile p) := by
  intro e he
  unfold find_script at he
  dsimp only at he
  split at he
  · rcases find_script_path_trace E w file e he with h | h
    · left; exact h
    · right; left; exact h
  · simp only [List.mem_append, List.mem_singleton] at he
    rcases he with he | he
    · rcases find_script_path_trace E w file e he with h | h
      · left; exact h
      · right; left; exact h
    · right; right; exact ⟨_, he⟩

/-- What the loading loop does: log lines, filesystem probes and factory
calls. -/
theorem load_scripts_trace {W Script Cmd : Type} (E : Env W Script Cmd) (refs : List String)
    (w : W) (scripts : List Script) :
    ∀ e ∈ (load_scripts E refs w scripts).2,
      (∃ sv sc m, e = Event.log sv sc m) ∨ (∃ p, e = Event.fileExists p) ∨
        (∃ p, e = Event.directoryExists p) ∨ (∃ p, e = Event.createFromFile p) := by
  induction refs generalizing w scripts with
  | nil => simp [load_scripts]
  | cons s rest ih =>
      intro e he
      have hfs := find_script_trace E w s
      rcases hres : find_script E w s with ⟨res, tr⟩
      rw [hres] at hfs
      have hhead : ∀ e', e' = Event.log Severity.Debug "main" ("Loading " ++ s) ∨ e' ∈ tr →
          (∃ sv sc m, e' = Event.log sv sc m) ∨ (∃ p, e' = Event.fileExists p) ∨
            (∃ p, e' = Event.directoryExists p) ∨ (∃ p, e' = Event.createFromFile p) := by
        rintro e' (rfl | h)
        · left; exact ⟨_, _, _, rfl⟩
        · right; exact hfs e' h
      cases res with
      | error msg =>
          simp only [load_scripts, hres, List.mem_cons] at he
          exact hhead e he
      | ok v =>
          obtain ⟨o, w1⟩ := v
          cases o with
          | none =>
              simp only [load_scripts, hres, List.mem_cons] at he
              exact hhead e he
          | some script =>
              simp only [load_scripts, hres, List.mem_cons, List.mem_append] at he
              rcases he with (he | he) | he
              · exact hhead e (Or.inl he)
              · exact hhead e (Or.inr he)
              · exact ih _ _ e he

theorem option_or_some_eq {β : Type} (x : Option β) (c : β) :
    x.or (some c) = some (x.getD c) := by
  cases x <;> rfl

/-- The inner loop keeps the last matching macro, or the command it started
with when none matches. -/
theorem scanMacros_eq {W Script Cmd : Type} (E : Env W Script Cmd) (w : W) (mname : String)
    (l : List Cmd) (cmd : Option Cmd) :
    scanMacros E w mname l cmd =
      ((l.filter (fun c => decide (E.StrMenu c w = mname))).getLast?).or cmd := by
  induction l generalizing cmd with
  | nil => simp [scanMacros]
  | cons c rest ih =>
      by_cases h : E.StrMenu c w = mname
      · simp [scanMacros, h, ih, List.getLast?_cons, option_or_some_eq]
      · simp [scanMacros, h, ih]

/-- The outer loop keeps the last matching macro over all scripts in load
order, or the command it started with when none matches. -/
theorem scanScripts_eq {W Script Cmd : Type} (E : Env W Script Cmd) (w : W) (mname : String)
    (scripts : List Script) (cmd : Option Cmd) :
    scanScripts E w mname scripts cmd =
      (((scripts.flatMap E.GetMacros).filter
        (fun c => decide (E.StrMenu c w = mname))).getLast?).or cmd := by
  induction scripts generalizing cmd with
  | nil => simp [scanScripts]
  | cons s rest ih =>
      rw [scanScripts, ih, scanMacros_eq, List.flatMap_cons, List.filter_append,
        List.getLast?_append, Option.or_assoc]

/-- No script macro matches exactly when the scan leaves `cmd` null. -/
theorem scanScripts_none_iff {W Script Cmd : Type} (E : Env W Script Cmd) (w : W)
    (mname : String) (scripts : List Script) :
    scanScripts E w mname scripts none = none ↔
      ∀ s ∈ scripts, ∀ c ∈ E.GetMacros s, E.StrMenu c w ≠ mname := by
  rw [scanScripts_eq, Option.or_none, List.getLast?_eq_none_iff, List.filter_eq_nil_iff]
  constructor
  · intro h s hs c hc
    have := h c (List.mem_flatMap.mpr ⟨s, hs, hc⟩)
    simpa using this
  · intro h c hc
    obtain ⟨s, hs, hcs⟩ := List.mem_flatMap.mp hc
    simpa using h s hs c hcs

/-- A command left by the scan is a matching macro of a loaded script. -/
theorem scanScripts_some {W Script Cmd : Type} (E : Env W Script Cmd) (w : W)
    (mname : String) (scripts : List Script) (c : Cmd)
    (h : scanScripts E w mname scripts none = some c) :
    ∃ s ∈ scripts, c ∈ E.GetMacros s ∧ E.StrMenu c w = mname := by
  rw [scanScripts_eq, Option.or_none] at h
  have hmem := List.mem_of_getLast?_eq_some h
  obtain ⟨hc, hname⟩ := List.mem_filter.mp hmem
  obtain ⟨s, hs, hcs⟩ := List.mem_flatMap.mp hc
  exact ⟨s, hs, hcs, by simpa using hname⟩

theorem or_flag_ne_zero (style flag : Nat) (i : Nat) (hflag : flag.testBit i = true) :
    (style ||| flag) ≠ 0 := by
  intro h
  have := Nat.testBit_or style flag i
  rw [h, hflag] at this
  simp at this

/-! ## Selection resolver -/

/-- C1 (fails on the code): with three lines, `--active-line 0` and
`--selected-lines` parsed to the set `{5}`, the resolver hands
`SetSelectionAndActive` the active line at position 0 together with an empty
selection: line 419 makes line 0 active, no position passes the test of line
423, and the post-scan step of line 433 is skipped because a line is active. -/
theorem C1_selection_empty_at_active_hit :
    resolveSelection ["l0", "l1", "l2"] 0 {5} = some (0, ∅) := by
  decide

/-- C2: for every event list, every selection index set `S` and every
`active_index = a` with `0 ≤ a < len`, the resolver makes the line at position
`a` active, whether or not `a` is in `S` (the selection being the scanned
positions that pass the test of line 423). -/
theorem C2_active_index_in_range_is_active {α : Type} (events : List α) (S : Finset Int)
    (a : Int) (h0 : 0 ≤ a) (h1 : a < events.length) :
    resolveSelection events a S =
      some (a.toNat, (Finset.range events.length).filter (fun p : Nat => S = ∅ ∨ (p : Int) ∈ S)) := by
  have hact : (scan a S events 0 scanInit).active_line = some a.toNat :=
    scan_active_hit a S events 0 scanInit rfl (by simpa using h0) (by simpa using h1)
  have hsel := scan_selected a S events 0 scanInit rfl
  unfold resolveSelection
  dsimp only
  rw [hact]
  dsimp only
  rw [hsel, Finset.range_eq_Ico, Nat.zero_add]
  simp only [scanInit, Finset.empty_union]

/-- Witness of C2: three lines, `active_index = 1`, selection index set `{2}`:
line 1 is active although only line 2 is selected. -/
theorem C2_active_index_in_range_is_active_witness :
    resolveSelection ["l0", "l1", "l2"] 1 {2} =
      some ((1 : Int).toNat,
        (Finset.range ["l0", "l1", "l2"].length).filter
          (fun p : Nat => ({2} : Finset Int) = ∅ ∨ (p : Int) ∈ ({2} : Finset Int))) :=
  C2_active_index_in_range_is_active ["l0", "l1", "l2"] {2} 1 (by decide) (by decide)

/-- C3: for every non-empty event list and every `active_index`, an empty
selection index set makes the resolver select every line of the document; the
active line it returns is a line of the document. -/
theorem C3_empty_index_set_selects_all {α : Type} (events : List α) (a : Int)
    (hne : events ≠ []) :
    ∃ active, active < events.length ∧
      resolveSelection events a ∅ = some (active, Finset.range events.length) := by
  have hsel := scan_selected a ∅ events 0 scanInit rfl
  have hall : (scan a ∅ events 0 scanInit).selected_lines = Finset.range events.length := by
    rw [hsel]
    ext p
    simp [scanInit]
  have hsome : (scan a ∅ events 0 scanInit).active_line.isSome = true := by
    cases events with
    | nil => exact absurd rfl hne
    | cons x rest =>
        rw [scan]
        apply scan_active_isSome
        by_cases heq : scanInit.i = a
        · rw [scanStep_active_hit a ∅ scanInit 0 heq]; rfl
        · rw [scanStep_active_none a ∅ scanInit 0 heq rfl]; simp
  obtain ⟨x, hx⟩ := Option.isSome_iff_exists.mp hsome
  refine ⟨x, ?_, ?_⟩
  · have := scan_active_bound a ∅ events 0 scanInit (by simp [scanInit]) x hx
    omega
  · unfold resolveSelection
    dsimp only
    rw [hx]
    dsimp only
    rw [hall]

/-- Witness of C3: three lines, the default `active_index = -1`. -/
theorem C3_empty_index_set_selects_all_witness :
    ∃ active, active < ["l0", "l1", "l2"].length ∧
      resolveSelection ["l0", "l1", "l2"] (-1) ∅ =
        some (active, Finset.range ["l0", "l1", "l2"].length) :=
  C3_empty_index_set_selects_all ["l0", "l1", "l2"] (-1) (by decide)

/-! ## Script lookup -/

/-- C4: when no file has the empty path, `find_script` hands the script
factory exactly the path of the ordered policy (direct path, else the path
under the working directory, else the last existing `directory/reference` over
the existing autoload directories in listed order) and returns what the
factory returns; and when the direct or the cwd-relative file exists, no
autoload directory is probed. -/
theorem C4_find_script_follows_policy {W Script Cmd : Type} (E : Env W Script Cmd) (w : W)
    (file : String) (hne : ∀ p, E.FileExists w p = true → p ≠ "") :
    (∀ p, find_script_policy E w file = some p →
      (find_script E w file).1 = Except.ok (E.CreateFromFile p w) ∧
      ∀ q, Event.createFromFile q ∈ (find_script E w file).2 ↔ q = p) ∧
    ((E.FileExists w file = true ∨ E.FileExists w (E.join (E.current_path w) file) = true) →
      ∀ d, Event.directoryExists d ∉ (find_script E w file).2) := by
  constructor
  · intro p hp
    have hpath : (find_script_path E w file : Path × List (Event Cmd)).1 = p := by
      rw [find_script_path_eq, hp]; rfl
    have hpne : p ≠ "" := hne p (find_script_policy_exists E w file p hp)
    have hval : find_script E w file =
        (Except.ok (E.CreateFromFile p w),
          (find_script_path E w file).2 ++ [Event.createFromFile p]) := by
      simp [find_script, hpath, hpne]
    rw [hval]
    refine ⟨rfl, ?_⟩
    intro q
    simp only [List.mem_append, List.mem_singleton]
    constructor
    · rintro (h | h)
      · rcases find_script_path_trace E w file _ h with ⟨_, h2⟩ | ⟨_, h2⟩ <;> cases h2
      · injection h
    · rintro rfl
      right; rfl
  · intro hex d hd
    have hmem : Event.directoryExists d ∈ (find_script_path E w file : Path × List (Event Cmd)).2 := by
      unfold find_script at hd
      dsimp only at hd
      split at hd
      · exact hd
      · simp only [List.mem_append, List.mem_singleton] at hd
        rcases hd with hd | hd
        · exact hd
        · cases hd
    unfold find_script_path at hmem
    dsimp only at hmem
    split at hmem
    · simp at hmem
    · split at hmem
      · simp at hmem
      · rename_i hA hB
        rcases hex with h | h
        · exact hA h
        · exact hB h

/-- Witness of C4: `x.lua` exists in both autoload directories `/a` and `/b`
of the example environment and nowhere else; the later directory wins. -/
theorem C4_find_script_follows_policy_witness :
    (find_script demoEnv () "x.lua").1 = Except.ok (demoEnv.CreateFromFile "/b/x.lua" ()) ∧
      ∀ q, Event.createFromFile q ∈ (find_script demoEnv () "x.lua").2 ↔ q = "/b/x.lua" :=
  (C4_find_script_follows_policy demoEnv () "x.lua"
    (by intro p hp hpe; subst hpe; exact absurd hp (by decide))).1 "/b/x.lua" (by decide)

/-- C5: when no file has the empty path, `find_script` throws if and only if
no candidate exists (neither the direct path, nor the path under the working
directory, nor `directory/reference` for any existing autoload directory);
the message thrown is `"Could not find script file: "` followed by the
reference, and no path is handed to the script factory. -/
theorem C5_find_script_fails_iff_no_candidate {W Script Cmd : Type} (E : Env W Script Cmd)
    (w : W) (file : String) (hne : ∀ p, E.FileExists w p = true → p ≠ "") :
    ((∃ msg, (find_script E w file).1 = Except.error msg) ↔
      (E.FileExists w file = false ∧
        E.FileExists w (E.join (E.current_path w) file) = false ∧
        ∀ tok ∈ Split (E.Autoload w) '|',
          E.DirectoryExists w (E.Decode w tok) = true →
            E.FileExists w (E.join (E.Decode w tok) file) = false)) ∧
    (∀ msg, (find_script E w file).1 = Except.error msg →
      msg = "Could not find script file: " ++ file ∧
      ∀ p, Event.createFromFile p ∉ (find_script E w file).2) := by
  have hpath := @find_script_path_eq W Script Cmd E w file
  constructor
  · rw [← find_script_policy_none]
    cases hpol : find_script_policy E w file with
    | none =>
        rw [hpol] at hpath
        simp [find_script, hpath]
    | some p =>
        rw [hpol] at hpath
        have hpne : p ≠ "" := hne p (find_script_policy_exists E w file p hpol)
        have hpath2 : (find_script_path E w file : Path × List (Event Cmd)).1 = p := hpath
        simp [find_script, hpath2, hpne]
  · intro msg hmsg
    unfold find_script at hmsg ⊢
    dsimp only at hmsg ⊢
    split at hmsg
    · rename_i hempty
      simp only [hempty, if_true]
      injection hmsg with hmsg
      refine ⟨hmsg.symm, ?_⟩
      intro p hp
      rcases find_script_path_trace E w file _ hp with ⟨_, h2⟩ | ⟨_, h2⟩ <;> cases h2
    · cases hmsg

/-- Witness of C5: `nowhere.lua` exists in no candidate place of the example
environment, and the lookup throws naming it. -/
theorem C5_find_script_fails_iff_no_candidate_witness :
    (∃ msg, (find_script demoEnv () "nowhere.lua").1 = Except.error msg) ↔
      (demoEnv.FileExists () "nowhere.lua" = false ∧
        demoEnv.FileExists () (demoEnv.join (demoEnv.current_path ()) "nowhere.lua") = false ∧
        ∀ tok ∈ Split (demoEnv.Autoload ()) '|',
          demoEnv.DirectoryExists () (demoEnv.Decode () tok) = true →
            demoEnv.FileExists () (demoEnv.join (demoEnv.Decode () tok) "nowhere.lua") = false) :=
  (C5_find_script_fails_iff_no_candidate demoEnv () "nowhere.lua"
    (by intro p hp hpe; subst hpe; exact absurd hp (by decide))).1

/-! ## Command resolution -/

/-- The state of `main` once the selection is set and the scripts are loaded:
the run reaches line 463 with `scripts`, and what follows is `run_command`. -/
theorem main_cli_loaded {α W Script Cmd : Type} (E : Env W Script Cmd) (w : W)
    (events : List α) (a : Int) (S : Finset Int) (automation : List String)
    (mname out_file : String) (active : Nat) (sel : Finset Nat) (scripts : List Script)
    (w2 : W) (tr : List (Event Cmd))
    (hsel : resolveSelection events a S = some (active, sel))
    (hload : load_scripts E automation (E.SetSelectionAndActive sel active w) [] =
      (LoadResult.loaded scripts w2, tr)) :
    main_cli E w events a S automation mname out_file =
      ((run_command E w2 scripts mname
          (E.current_path (E.SetSelectionAndActive sel active w)) out_file).1,
        (run_command E w2 scripts mname
          (E.current_path (E.SetSelectionAndActive sel active w)) out_file).2.1,
        Event.setSelectionAndActive sel active :: tr ++
          (run_command E w2 scripts mname
            (E.current_path (E.SetSelectionAndActive sel active w)) out_file).2.2) := by
  unfold main_cli
  rw [hsel]
  dsimp only
  rw [hload]

/-- C6: the command left by the scan of lines 468-474 is the last macro, over
the loaded scripts in load order and the macros of each script in exposure
order, whose display name equals the requested name; in particular when a
script exposes a matching macro and no later-loaded script does, the resolved
command is the last matching macro of that script, whatever earlier scripts
expose. -/
theorem C6_script_macro_last_match_wins {W Script Cmd : Type} (E : Env W Script Cmd) (w : W)
    (mname : String) (scripts : List Script) :
    scanScripts E w mname scripts none =
      ((scripts.flatMap E.GetMacros).filter
        (fun c => decide (E.StrMenu c w = mname))).getLast? ∧
    ∀ pre s post, scripts = pre ++ s :: post →
      (∃ c ∈ E.GetMacros s, E.StrMenu c w = mname) →
      (∀ t ∈ post, ∀ c ∈ E.GetMacros t, E.StrMenu c w ≠ mname) →
      ∃ c ∈ E.GetMacros s, E.StrMenu c w = mname ∧
        ((E.GetMacros s).filter (fun c => decide (E.StrMenu c w = mname))).getLast? = some c ∧
        (resolve_command E w scripts mname).1 = some c := by
  refine ⟨by rw [scanScripts_eq, Option.or_none], ?_⟩
  rintro pre s post rfl ⟨c0, hc0, hn0⟩ hpost
  have hpostnil : (post.flatMap E.GetMacros).filter
      (fun c => decide (E.StrMenu c w = mname)) = [] := by
    rw [List.filter_eq_nil_iff]
    intro c hc
    obtain ⟨t, ht, hct⟩ := List.mem_flatMap.mp hc
    simpa using hpost t ht c hct
  have hsne : (E.GetMacros s).filter (fun c => decide (E.StrMenu c w = mname)) ≠ [] := by
    intro h
    rw [List.filter_eq_nil_iff] at h
    exact h c0 hc0 (by simpa using hn0)
  cases hlast : ((E.GetMacros s).filter (fun c => decide (E.StrMenu c w = mname))).getLast? with
  | none => exact absurd (List.getLast?_eq_none_iff.mp hlast) hsne
  | some c =>
      have hmem := List.mem_filter.mp (List.mem_of_getLast?_eq_some hlast)
      have hscan : scanScripts E w mname (pre ++ s :: post) none = some c := by
        rw [scanScripts_eq, Option.or_none, List.flatMap_append, List.flatMap_cons,
          List.filter_append, List.filter_append, hpostnil, List.append_nil,
          List.getLast?_append, hlast]
        rfl
      refine ⟨c, hmem.1, by simpa using hmem.2, rfl, ?_⟩
      unfold resolve_command
      rw [hscan]

/-- Witness of C6: two loaded scripts both expose a macro displayed as `Dup`;
the macro of the later-loaded script is resolved. -/
theorem C6_script_macro_last_match_wins_witness :
    scanScripts demoEnv () "Dup" [[(3, "Dup")], [(1, "Dup"), (2, "Strict")]] none =
      some (1, "Dup") :=
  (C6_script_macro_last_match_wins demoEnv () "Dup"
    [[(3, "Dup")], [(1, "Dup"), (2, "Strict")]]).1.trans (by decide)

/-- C7: the registry lookup `cmd::get` is made if and only if no macro of a
loaded script has the requested display name, and only for that name; when a
script macro matches, the resolved command is a matching script macro whatever
the registry holds; when none matches, the resolved command is what the
registry holds for the name. -/
theorem C7_script_macros_before_registry {W Script Cmd : Type} (E : Env W Script Cmd) (w : W)
    (scripts : List Script) (mname : String) :
    ((∃ n, Event.cmdGet n ∈ (resolve_command E w scripts mname).2) ↔
      ∀ s ∈ scripts, ∀ c ∈ E.GetMacros s, E.StrMenu c w ≠ mname) ∧
    (∀ n, Event.cmdGet n ∈ (resolve_command E w scripts mname).2 → n = mname) ∧
    ((∃ s ∈ scripts, ∃ c ∈ E.GetMacros s, E.StrMenu c w = mname) →
      ∃ s ∈ scripts, ∃ c ∈ E.GetMacros s, E.StrMenu c w = mname ∧
        (resolve_command E w scripts mname).1 = some c) ∧
    ((∀ s ∈ scripts, ∀ c ∈ E.GetMacros s, E.StrMenu c w ≠ mname) →
      (resolve_command E w scripts mname).1 = E.get mname w) := by
  have hiff := scanScripts_none_iff E w mname scripts
  cases hscan : scanScripts E w mname scripts none with
  | some c =>
      have hval : resolve_command E w scripts mname = (some c, []) := by
        unfold resolve_command
        rw [hscan]
      have hnot : ¬ ∀ s ∈ scripts, ∀ c ∈ E.GetMacros s, E.StrMenu c w ≠ mname := by
        intro h
        rw [hiff.mpr h] at hscan
        cases hscan
      obtain ⟨s, hs, hc, hname⟩ := scanScripts_some E w mname scripts c hscan
      rw [hval]
      refine ⟨⟨fun ⟨n, hn⟩ => by simp at hn, fun h => absurd h hnot⟩, ?_, ?_, ?_⟩
      · intro n hn
        simp at hn
      · intro _
        exact ⟨s, hs, c, hc, hname, rfl⟩
      · intro h
        exact absurd h hnot
  | none =>
      have hno := hiff.mp hscan
      cases hget : E.get mname w with
      | some c =>
          have hval : resolve_command E w scripts mname = (some c, [Event.cmdGet mname]) := by
            unfold resolve_command
            rw [hscan]
            dsimp only
            rw [hget]
          rw [hval]
          refine ⟨⟨fun _ => hno, fun _ => ⟨mname, by simp⟩⟩, ?_, ?_, ?_⟩
          · intro n hn
            simpa using hn
          · rintro ⟨s, hs, c', hc', hname⟩
            exact absurd hname (hno s hs c' hc')
          · intro _
            rfl
      | none =>
          have hval : resolve_command E w scripts mname =
              (none, [Event.cmdGet mname, Event.stdout "asdf\n",
                Event.log Severity.Exception "main" ("Command not found: " ++ mname)]) := by
            unfold resolve_command
            rw [hscan]
            dsimp only
            rw [hget]
          rw [hval]
          refine ⟨⟨fun _ => hno, fun _ => ⟨mname, by simp⟩⟩, ?_, ?_, ?_⟩
          · intro n hn
            simpa using hn
          · rintro ⟨s, hs, c', hc', hname⟩
            exact absurd hname (hno s hs c' hc')
          · intro _
            rfl

/-- Witness of C7: the registry of the example environment holds `Dup`, and so
does a loaded script; a script macro is resolved. -/
theorem C7_script_macros_before_registry_witness :
    ∃ s ∈ [[((1 : Nat), "Dup"), (2, "Strict")]], ∃ c ∈ demoEnv.GetMacros s,
      demoEnv.StrMenu c () = "Dup" ∧
        (resolve_command demoEnv () [[(1, "Dup"), (2, "Strict")]] "Dup").1 = some c :=
  (C7_script_macros_before_registry demoEnv () [[(1, "Dup"), (2, "Strict")]] "Dup").2.2.1
    ⟨[(1, "Dup"), (2, "Strict")], by simp, (1, "Dup"), by simp [demoEnv], rfl⟩

/-- C8: in a run that has set the selection and loaded its scripts, when the
requested name is the display name of no loaded script macro and the registry
has no command of that identifier, `main` returns 1 after logging
`"Command not found: "` followed by the name; no command is validated or
invoked, nothing is saved, and the state is the one left by script loading. -/
theorem C8_command_not_found_exits_1 {α W Script Cmd : Type} (E : Env W Script Cmd) (w : W)
    (events : List α) (a : Int) (S : Finset Int) (automation : List String)
    (mname out_file : String) (active : Nat) (sel : Finset Nat) (scripts : List Script)
    (w2 : W) (tr : List (Event Cmd))
    (hsel : resolveSelection events a S = some (active, sel))
    (hload : load_scripts E automation (E.SetSelectionAndActive sel active w) [] =
      (LoadResult.loaded scripts w2, tr))
    (hno : ∀ s ∈ scripts, ∀ c ∈ E.GetMacros s, E.StrMenu c w2 ≠ mname)
    (hreg : E.get mname w2 = none) :
    main_cli E w events a S automation mname out_file =
      (Outcome.exit 1, w2,
        Event.setSelectionAndActive sel active :: tr ++
          [Event.cmdGet mname, Event.stdout "asdf\n",
            Event.log Severity.Exception "main" ("Command not found: " ++ mname)]) ∧
    (∀ c, Event.validate c ∉ (main_cli E w events a S automation mname out_file).2.2) ∧
    (∀ c, Event.invoke c ∉ (main_cli E w events a S automation mname out_file).2.2) ∧
    (∀ p, Event.save p ∉ (main_cli E w events a S automation mname out_file).2.2) := by
  have hscan := (scanScripts_none_iff E w2 mname scripts).mpr hno
  have hrun : ∀ cwd, run_command E w2 scripts mname cwd out_file =
      (Outcome.exit 1, w2, [Event.cmdGet mname, Event.stdout "asdf\n",
        Event.log Severity.Exception "main" ("Command not found: " ++ mname)]) := by
    intro cwd
    unfold run_command resolve_command
    rw [hscan]
    dsimp only
    rw [hreg]
  have hmain := main_cli_loaded E w events a S automation mname out_file active sel scripts
    w2 tr hsel hload
  rw [hrun] at hmain
  have htr := load_scripts_trace E automation (E.SetSelectionAndActive sel active w) []
  rw [hload] at htr
  have hrest : ∀ e : Event Cmd,
      e ∈ Event.setSelectionAndActive sel active :: tr ++
          [Event.cmdGet mname, Event.stdout "asdf\n",
            Event.log Severity.Exception "main" ("Command not found: " ++ mname)] →
      (∀ c, e ≠ Event.validate c) ∧ (∀ c, e ≠ Event.invoke c) ∧ (∀ p, e ≠ Event.save p) := by
    intro e he
    simp only [List.mem_append, List.mem_cons, List.mem_singleton, List.not_mem_nil,
      or_false] at he
    rcases he with (rfl | he) | rfl | rfl | rfl
    · simp
    · rcases htr e he with ⟨_, _, _, rfl⟩ | ⟨_, rfl⟩ | ⟨_, rfl⟩ | ⟨_, rfl⟩ <;> simp
    · simp
    · simp
    · simp
  rw [hmain]
  refine ⟨rfl, ?_, ?_, ?_⟩
  · intro c hc
    exact (hrest _ hc).1 c rfl
  · intro c hc
    exact (hrest _ hc).2.1 c rfl
  · intro p hp
    exact (hrest _ hp).2.2 p rfl

/-- Witness of C8: the example environment loads `x.lua`; the name `nope` is
neither a macro of the loaded script nor in the registry. -/
theorem C8_command_not_found_exits_1_witness :
    (main_cli demoEnv () ["l0", "l1", "l2"] 1 {1} ["x.lua"] "nope" "out.ass").1 =
      Outcome.exit 1 :=
  congrArg Prod.fst
    (C8_command_not_found_exits_1 demoEnv () ["l0", "l1", "l2"] 1 {1} ["x.lua"] "nope"
      "out.ass" 1 {1} [[(1, "Dup"), (2, "Strict")]] ()
      (load_scripts demoEnv ["x.lua"] () []).2 (by decide) (by rfl) (by decide) (by decide)).1

/-- C9: in a run that has set the selection and loaded its scripts, when the
validation predicate of the resolved command returns false, `main` returns 1
after validating that command and logging the reason; no command is invoked,
nothing is saved, and the state is the one left by script loading. -/
theorem C9_validation_false_exits_1 {α W Script Cmd : Type} (E : Env W Script Cmd) (w : W)
    (events : List α) (a : Int) (S : Finset Int) (automation : List String)
    (mname out_file : String) (active : Nat) (sel : Finset Nat) (scripts : List Script)
    (w2 : W) (tr : List (Event Cmd)) (c : Cmd)
    (hsel : resolveSelection events a S = some (active, sel))
    (hload : load_scripts E automation (E.SetSelectionAndActive sel active w) [] =
      (LoadResult.loaded scripts w2, tr))
    (hres : (resolve_command E w2 scripts mname).1 = some c)
    (hval : E.Validate c w2 = false) :
    (main_cli E w events a S automation mname out_file).1 = Outcome.exit 1 ∧
    (main_cli E w events a S automation mname out_file).2.1 = w2 ∧
    Event.validate c ∈ (main_cli E w events a S automation mname out_file).2.2 ∧
    Event.log Severity.Exception "main"
        "Skipping automation because validation function returned false" ∈
      (main_cli E w events a S automation mname out_file).2.2 ∧
    (∀ d, Event.invoke d ∉ (main_cli E w events a S automation mname out_file).2.2) ∧
    (∀ p, Event.save p ∉ (main_cli E w events a S automation mname out_file).2.2) := by
  have hresolved : ∀ e ∈ (resolve_command E w2 scripts mname).2,
      (∃ n, e = Event.cmdGet n) ∨ (∃ t, e = Event.stdout t) ∨
        (∃ sv sc m, e = Event.log sv sc m) := by
    intro e he
    unfold resolve_command at he
    split at he
    · simp at he
    · split at he
      · simp only [List.mem_singleton] at he
        left; exact ⟨_, he⟩
      · simp only [List.mem_cons, List.mem_singleton, List.not_mem_nil, or_false] at he
        rcases he with rfl | rfl | rfl
        · left; exact ⟨_, rfl⟩
        · right; left; exact ⟨_, rfl⟩
        · right; right; exact ⟨_, _, _, rfl⟩
  rcases hrc : resolve_command E w2 scripts mname with ⟨rc, rtr⟩
  rw [hrc] at hres hresolved
  dsimp only at hres hresolved
  subst hres
  have hrun : ∀ cwd, run_command E w2 scripts mname cwd out_file =
      (Outcome.exit 1, w2, rtr ++ [Event.validate c,
        Event.log Severity.Exception "main"
          "Skipping automation because validation function returned false"]) := by
    intro cwd
    unfold run_command
    rw [hrc]
    dsimp only
    rw [if_pos hval]
  have hmain := main_cli_loaded E w events a S automation mname out_file active sel scripts
    w2 tr hsel hload
  rw [hrun] at hmain
  have htr := load_scripts_trace E automation (E.SetSelectionAndActive sel active w) []
  rw [hload] at htr
  have hrest : ∀ e : Event Cmd,
      e ∈ Event.setSelectionAndActive sel active :: tr ++
          (rtr ++ [Event.validate c,
            Event.log Severity.Exception "main"
              "Skipping automation because validation function returned false"]) →
      (∀ d, e ≠ Event.invoke d) ∧ (∀ p, e ≠ Event.save p) := by
    intro e he
    simp only [List.mem_append, List.mem_cons, List.mem_singleton, List.not_mem_nil,
      or_false] at he
    rcases he with (rfl | he) | he | rfl | rfl
    · simp
    · rcases htr e he with ⟨_, _, _, rfl⟩ | ⟨_, rfl⟩ | ⟨_, rfl⟩ | ⟨_, rfl⟩ <;> simp
    · rcases hresolved e he with ⟨_, rfl⟩ | ⟨_, rfl⟩ | ⟨_, _, _, rfl⟩ <;> simp
    · simp
    · simp
  rw [hmain]
  refine ⟨rfl, rfl, ?_, ?_, ?_, ?_⟩
  · simp
  · simp
  · intro d hd
    exact (hrest _ hd).1 d rfl
  · intro p hp
    exact (hrest _ hp).2 p rfl

/-- Witness of C9: the example environment loads `x.lua`, whose macro `Strict`
fails validation. -/
theorem C9_validation_false_exits_1_witness :
    (main_cli demoEnv () ["l0", "l1", "l2"] 1 {1} ["x.lua"] "Strict" "out.ass").1 =
      Outcome.exit 1 :=
  (C9_validation_false_exits_1 demoEnv () ["l0", "l1", "l2"] 1 {1} ["x.lua"] "Strict"
    "out.ass" 1 {1} [[(1, "Dup"), (2, "Strict")]] ()
    (load_scripts demoEnv ["x.lua"] () []).2 (2, "Strict") (by decide) (by rfl) (by rfl)
    (by rfl)).1

/-! ## Message shim -/

/-- C10 (fails on the code): in headless mode `wrapMessageBox` returns 0 and
logs `caption: message` at `Warning` severity for every style value, because
the tests of lines 32 and 34 combine the style with the flag by `|`; so the
error flag alone gives `Warning` where `Exception` is expected, and no flag
gives `Warning` where `Info` is expected. -/
theorem C10_wrapMessageBox_headless_always_warning :
    (∀ (mb : String → String → Nat → Int) (message caption : String) (style : Nat),
      @wrapMessageBox Unit false mb message caption style =
        (0, [Event.log Severity.Warning "agi" (caption ++ ": " ++ message)])) ∧
    @wrapMessageBox Unit false (fun _ _ _ => 0) "disk full" "Error" wxICON_ERROR =
      (0, [Event.log Severity.Warning "agi" "Error: disk full"]) ∧
    @wrapMessageBox Unit false (fun _ _ _ => 0) "saved" "Note" 0 =
      (0, [Event.log Severity.Warning "agi" "Note: saved"]) := by
  refine ⟨?_, by decide, by decide⟩
  intro mb message caption style
  have hw : (style ||| wxICON_WARNING) ≠ 0 := or_flag_ne_zero style wxICON_WARNING 8 (by decide)
  simp [wrapMessageBox, hw]

/-! ## Choice shim -/

/-- The search finds position `i` exactly when `i` is the first position that
holds the answer. -/
theorem findChoice_eq_some_iff (a : String) (l : List String) (i : Nat) :
    findChoice a l = some i ↔ l[i]? = some a ∧ ∀ j, j < i → l[j]? ≠ some a := by
  induction l generalizing i with
  | nil => simp [findChoice]
  | cons c rest ih =>
      by_cases hc : c = a
      · subst hc
        simp only [findChoice, if_true, Option.some.injEq]
        constructor
        · intro h
          subst h
          simp
        · rintro ⟨_, h2⟩
          cases i with
          | zero => rfl
          | succ n => exact absurd (by simp) (h2 0 (Nat.succ_pos n))
      · simp only [findChoice, hc, if_false, Option.map_eq_some']
        constructor
        · rintro ⟨n, hn, rfl⟩
          obtain ⟨h1, h2⟩ := (ih n).mp hn
          refine ⟨by simpa using h1, ?_⟩
          intro j hj
          cases j with
          | zero => simpa using hc
          | succ m => simpa using h2 m (by omega)
        · rintro ⟨h1, h2⟩
          cases i with
          | zero => simp at h1; exact absurd h1 hc
          | succ n =>
              refine ⟨n, (ih n).mpr ⟨by simpa using h1, ?_⟩, rfl⟩
              intro j hj
              simpa using h2 (j + 1) (by omega)

/-- The search fails exactly when no choice equals the answer. -/
theorem findChoice_eq_none_iff (a : String) (l : List String) :
    findChoice a l = none ↔ a ∉ l := by
  induction l with
  | nil => simp [findChoice]
  | cons c rest ih =>
      by_cases hc : c = a
      · simp [findChoice, hc]
      · have hc2 : ¬ a = c := fun h => hc h.symm
        simp [findChoice, hc, hc2, ih]

/-- With a non-empty choice list, lines 53-62 always return. -/
theorem answerChoice_ne_none {Cmd : Type} (try_parse : String → Option Int)
    (caption : String) (choices : List String) (choice : String) (hne : choices ≠ []) :
    ∃ r, @answerChoice Cmd try_parse caption choices choice = some r := by
  unfold answerChoice
  cases findChoice choice choices with
  | some i => exact ⟨_, rfl⟩
  | none =>
      cases try_parse choice with
      | some v => exact ⟨_, rfl⟩
      | none =>
          cases choices with
          | nil => exact absurd rfl hne
          | cons first rest => exact ⟨_, rfl⟩

/-- A headless call on a key whose vector ends in `a` answers with `a` and
pops it. -/
theorem wrapChoiceDialog_headless_pop {Cmd : Type}
    (gui : String → String → List String → Int) (try_parse : String → Option Int)
    (m : ChoiceIndices) (key message caption : String) (choices : List String)
    (queue : List String) (a : String) (hm : m key = some (queue ++ [a])) :
    @wrapChoiceDialog Cmd false gui try_parse m key message caption choices =
      (answerChoice try_parse caption choices a).map
        (fun r => (r.1, popBack m key (queue ++ [a]), r.2)) := by
  unfold wrapChoiceDialog
  simp only [Bool.false_eq_true, if_false]
  rw [hm]
  cases hq : queue ++ [a] with
  | nil => simp at hq
  | cons x xs =>
      have hlast : (x :: xs).getLast (List.cons_ne_nil x xs) = a := by
        have h1 : (x :: xs).getLast? = some a := by rw [← hq, List.getLast?_concat]
        rw [List.getLast?_eq_getLast _ (List.cons_ne_nil x xs)] at h1
        exact Option.some.inj h1
      dsimp only
      rw [hlast]
      cases answerChoice try_parse caption choices a with
      | none => rfl
      | some r => rfl

theorem popBack_key (m : ChoiceIndices) (key : String) (queue : List String) (a : String) :
    popBack m key (queue ++ [a]) key = some queue := by
  simp [popBack]

theorem popBack_other (m : ChoiceIndices) (key : String) (queue : List String) (k : String)
    (hk : k ≠ key) : popBack m key queue k = m k := by
  simp [popBack, hk]

/-- As many headless calls as the key has answers take the answers from the
last to the first, empty the vector of the key and leave every other key. -/
theorem wrapChoiceDialogCalls_lifo {Cmd : Type} (try_parse : String → Option Int)
    (key : String) (calls : List (String × String × List String)) (m : ChoiceIndices)
    (queue : List String) (hm : m key = some queue) (hlen : calls.length = queue.length)
    (hne : ∀ c ∈ calls, c.2.2 ≠ []) :
    ∃ results final,
      @wrapChoiceDialogCalls Cmd try_parse key calls m = some (results, final) ∧
      results.map some =
        List.zipWith (fun c a => answerChoice try_parse c.2.1 c.2.2 a) calls queue.reverse ∧
      final key = some [] ∧ ∀ k, k ≠ key → final k = m k := by
  induction calls generalizing m queue with
  | nil =>
      have hq : queue = [] := List.length_eq_zero.mp hlen.symm
      subst hq
      exact ⟨[], m, rfl, rfl, hm, fun _ _ => rfl⟩
  | cons c rest ih =>
      obtain ⟨message, caption, choices⟩ := c
      rcases List.eq_nil_or_concat queue with hq | ⟨q, a, hq⟩
      · subst hq
        simp at hlen
      · rw [List.concat_eq_append] at hq
        subst hq
        have hstep := @wrapChoiceDialog_headless_pop Cmd (fun _ _ _ => 0) try_parse m key
          message caption choices q a hm
        obtain ⟨r, hr⟩ := @answerChoice_ne_none Cmd try_parse caption choices a
          (hne (message, caption, choices) (List.mem_cons_self _ _))
        rw [hr] at hstep
        have hlen2 : rest.length = q.length := by
          simp only [List.length_cons, List.length_append, List.length_nil] at hlen
          omega
        obtain ⟨results, final, hcalls, hres, hkey, hother⟩ :=
          ih (popBack m key (q ++ [a])) q (popBack_key m key q a) hlen2
            (fun c hc => hne c (List.mem_cons_of_mem _ hc))
        refine ⟨(r.1, r.2) :: results, final, ?_, ?_, hkey, ?_⟩
        · simp only [wrapChoiceDialogCalls, hstep, Option.map_some', hcalls]
        · simp only [List.map_cons, List.reverse_append, List.reverse_cons, List.reverse_nil,
            List.nil_append, List.singleton_append, List.zipWith_cons_cons, hres, hr]
        · intro k hk
          rw [hother k hk, popBack_other m key _ k hk]

/-- C11: in headless mode, for every key, every non-empty choice list and
every state of `config::choice_indices`, `wrapChoiceDialog` returns 0 when the
key is absent or its vector is empty; otherwise, with `a` the last answer of
the vector, it returns the position of the first choice equal to `a` when
there is one (whatever `a` parses to), else the integer `a` parses to as it
is, else 0. -/
theorem C11_wrapChoiceDialog_headless_result {Cmd : Type}
    (gui : String → String → List String → Int) (try_parse : String → Option Int)
    (m : ChoiceIndices) (key message caption : String) (choices : List String)
    (hne : choices ≠ []) :
    ((m key = none ∨ m key = some []) →
      (@wrapChoiceDialog Cmd false gui try_parse m key message caption choices).map
        (fun r => r.1) = some 0) ∧
    (∀ queue a, m key = some (queue ++ [a]) →
      (∀ i : Nat, choices[i]? = some a → (∀ j : Nat, j < i → choices[j]? ≠ some a) →
        (@wrapChoiceDialog Cmd false gui try_parse m key message caption choices).map
          (fun r => r.1) = some (i : Int)) ∧
      (∀ v, a ∉ choices → try_parse a = some v →
        (@wrapChoiceDialog Cmd false gui try_parse m key message caption choices).map
          (fun r => r.1) = some v) ∧
      (a ∉ choices → try_parse a = none →
        (@wrapChoiceDialog Cmd false gui try_parse m key message caption choices).map
          (fun r => r.1) = some 0)) := by
  obtain ⟨first, rest, rfl⟩ := List.exists_cons_of_ne_nil hne
  constructor
  · rintro (h | h) <;> simp [wrapChoiceDialog, h]
  · intro queue a hm
    rw [wrapChoiceDialog_headless_pop gui try_parse m key message caption _ queue a hm]
    refine ⟨?_, ?_, ?_⟩
    · intro i h1 h2
      have hfind := (findChoice_eq_some_iff a (first :: rest) i).mpr ⟨h1, h2⟩
      simp [answerChoice, hfind]
    · intro v hnot hparse
      have hfind := (findChoice_eq_none_iff a (first :: rest)).mpr hnot
      simp [answerChoice, hfind, hparse]
    · intro hnot hparse
      have hfind := (findChoice_eq_none_iff a (first :: rest)).mpr hnot
      simp [answerChoice, hfind, hparse]

/-- Witness of C11: the key `fmt2` holds `7`, `zzz`, and the answer `zzz` is a
choice at position 2; the call returns 2. -/
theorem C11_wrapChoiceDialog_headless_result_witness :
    (@wrapChoiceDialog Unit false (fun _ _ _ => 0) demoParse demoChoices "fmt2" "Pick" "Format"
      ["7", "x", "zzz"]).map (fun r => r.1) = some ((2 : Nat) : Int) :=
  ((C11_wrapChoiceDialog_headless_result (fun _ _ _ => 0) demoParse demoChoices "fmt2" "Pick"
    "Format" ["7", "x", "zzz"] (by decide)).2 ["7"] "zzz" (by decide)).1 2 (by decide)
    (by decide)

/-- C12: in headless mode a call of `wrapChoiceDialog` on a key whose vector
ends in `a` answers with `a`, removes exactly that last entry and leaves the
vector of every other key; so for a key holding `a1, ..., an`, `n` successive
calls with non-empty choice lists answer with `an`, then `a(n-1)`, ..., then
`a1`, and empty the vector of the key. -/
theorem C12_choice_queue_is_lifo {Cmd : Type} (try_parse : String → Option Int)
    (m : ChoiceIndices) (key : String) :
    (∀ (gui : String → String → List String → Int) (message caption : String)
        (choices queue : List String) (a : String), m key = some (queue ++ [a]) →
      @wrapChoiceDialog Cmd false gui try_parse m key message caption choices =
          (answerChoice try_parse caption choices a).map
            (fun r => (r.1, popBack m key (queue ++ [a]), r.2)) ∧
        popBack m key (queue ++ [a]) key = some queue ∧
        ∀ k, k ≠ key → popBack m key (queue ++ [a]) k = m k) ∧
    (∀ (queue : List String) (calls : List (String × String × List String)),
      m key = some queue → calls.length = queue.length → (∀ c ∈ calls, c.2.2 ≠ []) →
      ∃ results final,
        @wrapChoiceDialogCalls Cmd try_parse key calls m = some (results, final) ∧
        results.map some =
          List.zipWith (fun c a => answerChoice try_parse c.2.1 c.2.2 a) calls queue.reverse ∧
        final key = some [] ∧ ∀ k, k ≠ key → final k = m k) := by
  constructor
  · intro gui message caption choices queue a hm
    exact ⟨wrapChoiceDialog_headless_pop gui try_parse m key message caption choices queue a hm,
      popBack_key m key queue a, fun k hk => popBack_other m key _ k hk⟩
  · intro queue calls hm hlen hne
    exact wrapChoiceDialogCalls_lifo try_parse key calls m queue hm hlen hne

/-- Witness of C12: the key `K` holds `A`, `B`; two calls with the choices
`A`, `B` answer with `B` (position 1) and then with `A` (position 0). -/
theorem C12_choice_queue_is_lifo_witness :
    ∃ results final,
      @wrapChoiceDialogCalls Unit demoParse "K"
          [("Pick", "First", ["A", "B"]), ("Pick", "Second", ["A", "B"])] demoChoices =
        some (results, final) ∧
      results.map some =
        List.zipWith (fun c a => answerChoice demoParse c.2.1 c.2.2 a)
          [("Pick", "First", ["A", "B"]), ("Pick", "Second", ["A", "B"])] ["A", "B"].reverse ∧
      final "K" = some [] ∧ ∀ k, k ≠ "K" → final k = demoChoices k :=
  (C12_choice_queue_is_lifo demoParse demoChoices "K").2 ["A", "B"]
    [("Pick", "First", ["A", "B"]), ("Pick", "Second", ["A", "B"])] (by decide) (by decide)
    (by decide)

/-! ## Selection resolver: fallbacks -/

/-- When the counter never meets `active_index` and no line is active yet, the
first scanned position that passes the test of line 423 ends up active. -/
theorem scan_active_miss_first {α : Type} (a : Int) (S : Finset Int) (l : List α) (pos : Nat)
    (st : ScanState) (hi : st.i = pos) (hact : st.active_line = none)
    (ha : a < st.i ∨ st.i + l.length ≤ a) (m : Nat) (hm1 : pos ≤ m) (hm2 : m < pos + l.length)
    (hsel : S = ∅ ∨ (m : Int) ∈ S)
    (hmin : ∀ p, pos ≤ p → p < m → ¬ (S = ∅ ∨ (p : Int) ∈ S)) :
    (scan a S l pos st).active_line = some m := by
  induction l generalizing pos st with
  | nil => simp at hm2; omega
  | cons y rest ih =>
      rw [scan]
      simp only [List.length_cons] at ha hm2
      push_cast at ha
      have hne : st.i ≠ a := by omega
      by_cases hpm : pos = m
      · subst hpm
        apply scan_active_keep
        · rw [scanStep_active_none a S st pos hne hact, hi, if_pos hsel]
        · rw [scanStep_i]
          omega
      · have hnot : ¬ (S = ∅ ∨ st.i ∈ S) := by
          rw [hi]
          exact hmin pos (Nat.le_refl pos) (by omega)
        apply ih
        · rw [scanStep_i, hi]
          push_cast
          ring
        · rw [scanStep_active_none a S st pos hne hact, if_neg hnot]
        · rw [scanStep_i]
          omega
        · omega
        · omega
        · intro p hp1 hp2
          exact hmin p (by omega) hp2

/-- When the counter never meets `active_index` and no scanned position passes
the test of line 423, no line becomes active. -/
theorem scan_active_miss_none {α : Type} (a : Int) (S : Finset Int) (l : List α) (pos : Nat)
    (st : ScanState) (hi : st.i = pos) (hact : st.active_line = none)
    (ha : a < st.i ∨ st.i + l.length ≤ a)
    (hnone : ∀ p, pos ≤ p → p < pos + l.length → ¬ (S = ∅ ∨ (p : Int) ∈ S)) :
    (scan a S l pos st).active_line = none := by
  induction l generalizing pos st with
  | nil => simpa [scan] using hact
  | cons y rest ih =>
      rw [scan]
      simp only [List.length_cons] at ha hnone
      push_cast at ha
      have hne : st.i ≠ a := by omega
      have hnot : ¬ (S = ∅ ∨ st.i ∈ S) := by
        rw [hi]
        exact hnone pos (Nat.le_refl pos) (by omega)
      apply ih
      · rw [scanStep_i, hi]
        push_cast
        ring
      · rw [scanStep_active_none a S st pos hne hact, if_neg hnot]
      · rw [scanStep_i]
        omega
      · intro p hp1 hp2
        exact hnone p (by omega) (by omega)

/-- C13: for every event list, every `active_index` outside `[0, len)` and
every selection index set that selects a position below `len` (a position
passes the test of line 423 when the set is empty or holds it), the resolver
makes the smallest selected position active and selects exactly the selected
positions below `len`. -/
theorem C13_first_selected_fallback {α : Type} (events : List α) (S : Finset Int) (a : Int)
    (hout : a < 0 ∨ (events.length : Int) ≤ a)
    (hsel : ∃ p : Nat, p < events.length ∧ (S = ∅ ∨ (p : Int) ∈ S)) :
    ∃ active : Nat,
      resolveSelection events a S =
        some (active,
          (Finset.range events.length).filter (fun p : Nat => S = ∅ ∨ (p : Int) ∈ S)) ∧
      active < events.length ∧ (S = ∅ ∨ (active : Int) ∈ S) ∧
      ∀ q : Nat, q < events.length → (S = ∅ ∨ (q : Int) ∈ S) → active ≤ q := by
  classical
  have hspec := Nat.find_spec hsel
  have hmin : ∀ q : Nat, q < events.length → (S = ∅ ∨ (q : Int) ∈ S) → Nat.find hsel ≤ q :=
    fun q h1 h2 => Nat.find_min' hsel ⟨h1, h2⟩
  have hact : (scan a S events 0 scanInit).active_line = some (Nat.find hsel) := by
    apply scan_active_miss_first a S events 0 scanInit rfl rfl
    · rcases hout with h | h
      · left; simpa [scanInit] using h
      · right; simpa [scanInit] using h
    · exact Nat.zero_le _
    · simpa using hspec.1
    · exact hspec.2
    · intro p _ hp hp2
      have hlt : p < events.length := Nat.lt_trans hp hspec.1
      exact absurd (hmin p hlt hp2) (by omega)
  have hselected := scan_selected a S events 0 scanInit rfl
  refine ⟨Nat.find hsel, ?_, hspec.1, hspec.2, hmin⟩
  unfold resolveSelection
  dsimp only
  rw [hact]
  dsimp only
  rw [hselected, Finset.range_eq_Ico, Nat.zero_add]
  simp only [scanInit, Finset.empty_union]

/-- Witness of C13: three lines, `active_index = -1`, selection index set
`{2}`. -/
theorem C13_first_selected_fallback_witness :
    ∃ active : Nat,
      resolveSelection ["l0", "l1", "l2"] (-1) {2} =
        some (active,
          (Finset.range ["l0", "l1", "l2"].length).filter
            (fun p : Nat => ({2} : Finset Int) = ∅ ∨ (p : Int) ∈ ({2} : Finset Int))) ∧
      active < ["l0", "l1", "l2"].length ∧
      (({2} : Finset Int) = ∅ ∨ (active : Int) ∈ ({2} : Finset Int)) ∧
      ∀ q : Nat, q < ["l0", "l1", "l2"].length →
        (({2} : Finset Int) = ∅ ∨ (q : Int) ∈ ({2} : Finset Int)) → active ≤ q :=
  C13_first_selected_fallback ["l0", "l1", "l2"] {2} (-1) (by decide) ⟨2, by decide, by decide⟩

/-- C14: for every non-empty event list, when `active_index` is outside
`[0, len)` and the selection index set is non-empty but holds no position
below `len`, the resolver makes the first line active and selects exactly
that line. -/
theorem C14_post_scan_fallback {α : Type} (events : List α) (S : Finset Int) (a : Int)
    (hne : events ≠ []) (hout : a < 0 ∨ (events.length : Int) ≤ a) (hS : S ≠ ∅)
    (hnone : ∀ p : Nat, p < events.length → (p : Int) ∉ S) :
    resolveSelection events a S = some (0, {0}) := by
  have hnot : ∀ p : Nat, 0 ≤ p → p < 0 + events.length → ¬ (S = ∅ ∨ (p : Int) ∈ S) := by
    intro p _ hp h
    rcases h with h | h
    · exact hS h
    · exact hnone p (by omega) h
  have hact : (scan a S events 0 scanInit).active_line = none := by
    apply scan_active_miss_none a S events 0 scanInit rfl rfl
    · rcases hout with h | h
      · left; simpa [scanInit] using h
      · right; simpa [scanInit] using h
    · exact hnot
  have hselected : (scan a S events 0 scanInit).selected_lines = ∅ := by
    rw [scan_selected a S events 0 scanInit rfl]
    simp only [scanInit, Finset.empty_union]
    rw [Finset.filter_eq_empty_iff]
    intro p hp
    have hp2 := Finset.mem_Ico.mp hp
    exact hnot p hp2.1 hp2.2
  obtain ⟨first, rest, rfl⟩ := List.exists_cons_of_ne_nil hne
  unfold resolveSelection
  dsimp only
  rw [hact]
  dsimp only
  rw [hselected]
  rfl

/-- Witness of C14: three lines, `active_index = -1`, selection index set
`{7}`. -/
theorem C14_post_scan_fallback_witness :
    resolveSelection ["l0", "l1", "l2"] (-1) {7} = some (0, {0}) :=
  C14_post_scan_fallback ["l0", "l1", "l2"] {7} (-1) (by decide) (by decide) (by decide)
    (by decide)

end Aegisub
